import Mathlib

/-!
# Verification of the pinch-to-zoom text summarization core

Shallow embedding of the word-scoring, diff/matching, gesture-mapping and
state-management functions of the repository, together with proofs of the
behavioural properties claimed by its specification.

Conventions:
* JavaScript number arithmetic is modelled over `ℚ` (the values involved are
  small rationals where exactness matters) and `ℤ`/`ℕ` for integer counters.
* JavaScript strings are Lean `String`s; `toLowerCase` is modelled on the
  basic-latin range (the only range the repository's inputs exercise).
* `split(/\s+/)` with the empty-token filter is modelled by `splitWords`,
  which returns the maximal runs of non-whitespace characters.
* JavaScript `Set` (insertion-ordered, first occurrence kept) is modelled by
  `jsSetOfList` over lists.
-/

/-- Whitespace class used by the `/\s+/` of the tokenizers (ASCII part). -/
def jsIsWhitespace (c : Char) : Bool :=
  c = ' ' || c = '\t' || c = '\n' || c = '\r' || c = '\x0b' || c = '\x0c'

/-- Maximal runs of non-whitespace characters of a character list. -/
def splitWordsAux : List Char → List Char → List String
  | [], cur => if cur.isEmpty then [] else [String.mk cur.reverse]
  | c :: cs, cur =>
    if jsIsWhitespace c then
      (if cur.isEmpty then [] else [String.mk cur.reverse]) ++ splitWordsAux cs []
    else
      splitWordsAux cs (c :: cur)

/-- `text.split(/\s+/).filter(w => w.trim())`: whitespace tokenization with
empty tokens dropped, as used by `analyzeDifference` and `transformDiffData`. -/
def splitWords (s : String) : List String :=
  splitWordsAux s.data []

/-- `String.prototype.toLowerCase` on the basic-latin range (`Char.toLower`
applied characterwise to the string's characters). -/
def lowerStr (s : String) : String :=
  String.mk (s.data.map Char.toLower)

/-! ## JavaScript `Set` model (insertion order, first occurrence kept) -/

/-- `Set.prototype.add`: append the element unless already present. -/
def jsSetAdd (acc : List String) (w : String) : List String :=
  if w ∈ acc then acc else acc ++ [w]

/-- `new Set(list)`: deduplicate keeping the first occurrence of each element. -/
def jsSetOfList (l : List String) : List String :=
  l.foldl jsSetAdd []

/-! ## WordMatcher / DiffEngine (fast path): `findExactMatches`, `analyzeDifference` -/

/-- A morph entry of the diff response: `{source, target, similarity}`. -/
structure Morph where
  source : String
  target : String
  similarity : ℚ
  deriving Repr, DecidableEq

/-- The fast-path diff response `{kept, removed, added, morphed}`. -/
structure TransitionDiff where
  kept : List String
  removed : List String
  added : List String
  morphed : List Morph
  deriving Repr, DecidableEq

/-- `findExactMatches(sourceWords, targetWords)`: intersection of the unique
lowercase token sets, iterated in the source set's insertion order. -/
def findExactMatches (sourceWords targetWords : List String) : List String :=
  let sourceSet := jsSetOfList (sourceWords.map lowerStr)
  let targetSet := jsSetOfList (targetWords.map lowerStr)
  sourceSet.foldl (fun ms w => if w ∈ targetSet then jsSetAdd ms w else ms) []

/-- `analyzeDifference(sourceText, targetText)`: the fast-path word diff.
Tokenizes both texts on whitespace, lowercases, classifies each unique word
as kept / removed / added; `morphed` is always empty on this path. -/
def analyzeDifference (sourceText targetText : String) : TransitionDiff :=
  let sourceWords := (splitWords sourceText).map lowerStr
  let targetWords := (splitWords targetText).map lowerStr
  let exactMatchesSet := findExactMatches sourceWords targetWords
  let kept := exactMatchesSet
  let removed := sourceWords.foldl
    (fun acc w => if w ∈ exactMatchesSet then acc else jsSetAdd acc w) []
  let added := targetWords.foldl
    (fun acc w => if w ∈ exactMatchesSet then acc else jsSetAdd acc w) []
  { kept := kept, removed := removed, added := added, morphed := [] }

/-! ## Client-side multiplicity re-projection: `transformDiffData` -/

/-- A client word reference `{word, index}` (original case, rendered index). -/
structure WordRef where
  word : String
  index : ℕ
  deriving Repr, DecidableEq

/-- A transformed morph entry `{from, to, similarity}` (the JS field names
`from`/`to` are rendered `fromRef`/`toRef`; `from` is a Lean keyword). -/
structure MorphRef where
  fromRef : WordRef
  toRef : WordRef
  similarity : ℚ
  deriving Repr, DecidableEq

/-- The output shape of `transformDiffData`. -/
structure Transformed where
  kept : List WordRef
  removed : List WordRef
  added : List WordRef
  morphed : List MorphRef
  deriving Repr, DecidableEq

/-- Per-lowercase-word occurrence counts of a diff list
(the `keptWordCounts` / `addedWordCounts` / `removedWordCounts` objects). -/
def wordCounts (ws : List String) : String → ℕ :=
  fun w => (ws.map lowerStr).count w

/-- `counts[word]--`. -/
def decCount (counts : String → ℕ) (w : String) : String → ℕ :=
  fun x => if x = w then counts x - 1 else counts x

/-- One matching walk of `transformDiffData`: scan the rendered `(index, word)`
pairs in order; take an occurrence while the word's remaining required count is
positive and the index is unused, marking the index used. Returns the taken
references (in scan order) and the final used-index set. -/
def assignPass : List (ℕ × String) → (String → ℕ) → List ℕ → List WordRef × List ℕ
  | [], _, used => ([], used)
  | (index, word) :: rest, counts, used =>
    let lowerWord := lowerStr word
    if 0 < counts lowerWord ∧ index ∉ used then
      let r := assignPass rest (decCount counts lowerWord) (index :: used)
      (⟨word, index⟩ :: r.1, r.2)
    else
      assignPass rest counts used

/-- `transformDiffData(diffData, fromText, toText)`: re-project the
vocabulary-level diff onto rendered token occurrences. `kept` and `added`
walk the `toText` tokens sharing one used-index set; `removed` walks the
`fromText` tokens with its own used-index set; `morphed` locates the first
case-insensitive occurrence of each morph's source/target token. -/
def transformDiffData (diffData : TransitionDiff) (fromText toText : String) : Transformed :=
  let fromWords := splitWords fromText
  let toWords := splitWords toText
  let keptPass := assignPass toWords.enum (wordCounts diffData.kept) []
  let addedPass := assignPass toWords.enum (wordCounts diffData.added) keptPass.2
  let removedPass := assignPass fromWords.enum (wordCounts diffData.removed) []
  let morphed := diffData.morphed.filterMap (fun morph =>
    let sourceWordLower := lowerStr morph.source
    let targetWordLower := lowerStr morph.target
    if sourceWordLower = "" ∨ targetWordLower = "" then none
    else
      match fromWords.enum.find? (fun p => lowerStr p.2 == sourceWordLower),
            toWords.enum.find? (fun p => lowerStr p.2 == targetWordLower) with
      | some (fromIdx, fw), some (toIdx, tw) =>
        some ⟨⟨fw, fromIdx⟩, ⟨tw, toIdx⟩, morph.similarity⟩
      | _, _ => none)
  { kept := keptPass.1, removed := removedPass.1, added := addedPass.1, morphed := morphed }

/-- Number of references a pass assigned to a given lowercase word. -/
def assignedCount (refs : List WordRef) (w : String) : ℕ :=
  (refs.filter (fun r => lowerStr r.word == w)).length

/-- Number of rendered occurrences of a lowercase word still available
(index not yet used). -/
def availCount (l : List (ℕ × String)) (used : List ℕ) (w : String) : ℕ :=
  (l.filter (fun p => lowerStr p.2 == w && decide (p.1 ∉ used))).length

/-! ## PriorityCalculator: `selectWordsToRemove` -/

/-- The output shape `{ toKeep, toRemove }` of `selectWordsToRemove`. -/
structure RemovalSelection (α : Type) where
  toKeep : List α
  toRemove : List α
  deriving Repr, DecidableEq

/-- `selectWordsToRemove(words, targetCompressionRate)`: keep
`floor(total × rate)` words, remove the rest; the words are assumed already
sorted ascending by priority, so `toRemove = words.slice(0, removeCount)`
and `toKeep = words.slice(removeCount)`. -/
def selectWordsToRemove {α : Type} (words : List α) (targetCompressionRate : ℚ) :
    RemovalSelection α :=
  let totalWords : ℤ := words.length
  let targetWordCount : ℤ := ⌊(totalWords : ℚ) * targetCompressionRate⌋
  let removeCount : ℤ := totalWords - targetWordCount
  { toKeep := words.drop removeCount.toNat, toRemove := words.take removeCount.toNat }

/-! ## GestureController: `scaleToLevel` -/

/-- `Math.round` (round half toward positive infinity). -/
def jsRound (x : ℚ) : ℤ := ⌊x + 1/2⌋

/-- The continuous level for a pinch scale: clamp the scale to
`[0.5, 2.0]`, normalize to `[0,1]`, map linearly and reversed onto `[0,3]`
(`rawLevel` of `scaleToLevel`). -/
def rawLevelOf (scale : ℚ) : ℚ :=
  let clampedScale := max (1/2) (min 2 scale)
  let normalized := (clampedScale - 1/2) / (2 - 1/2)
  3 - normalized * 3

/-- `scaleToLevel(scale)` with the current level read from the state
manager passed explicitly: commit `round(rawLevel)` only when the raw level
differs from the current level by at least the 0.15 threshold, else keep
the current level. -/
def scaleToLevel (scale : ℚ) (currentLevel : ℤ) : ℤ :=
  let rawLevel := rawLevelOf scale
  let levelDiff := |rawLevel - (currentLevel : ℚ)|
  if levelDiff ≥ 15/100 then jsRound rawLevel else currentLevel

/-! ## TfidfEngine: `calculateIDF`, `normalizeTFIDF` -/

/-- `Math.max(...scores)` over a list (0 for the empty list, which the code
never feeds through a branch whose value matters: on an empty map both
branches of `normalizeTFIDF` return the empty map). -/
def listMax : List ℚ → ℚ
  | [] => 0
  | x :: xs => xs.foldl max x

/-- `Math.min(...scores)` over a list (same convention as `listMax`). -/
def listMin : List ℚ → ℚ
  | [] => 0
  | x :: xs => xs.foldl min x

/-- `normalizeTFIDF`: min–max normalize the raw TF-IDF scores to `[0,1]`;
when the range is zero every normalized score is fixed at `0.5`. Modelled on
the list of raw scores, returning the list of `normalizedTfidf` values. -/
def normalizeTFIDF (scores : List ℚ) : List ℚ :=
  let maxScore := listMax scores
  let minScore := listMin scores
  let range := maxScore - minScore
  if range = 0 then
    scores.map (fun _ => 1/2)
  else
    scores.map (fun x => (x - minScore) / range)

/-- `calculateIDF(word, documents)` with the float `Math.log` abstracted as
a parameter `lg`: `0` when the word appears in no document, else
`lg(totalDocuments / documentsWithWord)`. -/
def calculateIDF (lg : ℚ → ℚ) (word : String) (documents : List (List String)) : ℚ :=
  let totalDocuments := documents.length
  let documentsWithWord := (documents.filter (fun doc => word ∈ doc)).length
  if documentsWithWord = 0 then 0
  else lg ((totalDocuments : ℚ) / (documentsWithWord : ℚ))

/-- `calculateLocationScore(position, sentenceLength)`: `1.0` for sentences
of length ≤ 1, else `1 − position/sentenceLength`. -/
def calculateLocationScore (position : ℚ) (sentenceLength : ℚ) : ℚ :=
  if sentenceLength ≤ 1 then 1
  else 1 - position / sentenceLength

/-! ## AnimationEngine: `isLargeTransition`, duration multiplier -/

/-- `isLargeTransition(diffData)`: `|added| + |kept| >= 3000`
(`largeTransitionThreshold`). -/
def isLargeTransition (diffData : Transformed) : Bool :=
  3000 ≤ diffData.added.length + diffData.kept.length

/-- `totalAnimatedWords` of `executeTimeline`:
`|added| + |kept| + |removed|`. -/
def totalAnimatedWords (diffData : Transformed) : ℕ :=
  diffData.added.length + diffData.kept.length + diffData.removed.length

/-- `durationMultiplier` of `executeTimeline`:
`Math.max(0.3, Math.min(1.0, totalAnimatedWords / 100))`. -/
def durationMultiplier (diffData : Transformed) : ℚ :=
  max (3/10) (min 1 ((totalAnimatedWords diffData : ℚ) / 100))

/-- `clamp(x, lo, hi)` as the specification writes it. -/
def clampQ (x lo hi : ℚ) : ℚ := max lo (min hi x)

/-! ## TextStructurer: `estimatePOS` -/

/-- The closed POS tag enumeration. -/
inductive PosTag
  | NOUN | VERB | ADJ | ADV | ADP | DET | CONJ | NUM
  deriving DecidableEq, Repr

/-- `/^[a-zA-Z]+$/` membership for one character. -/
def isEnglishLetter (c : Char) : Bool :=
  ('a' ≤ c && c ≤ 'z') || ('A' ≤ c && c ≤ 'Z')

/-- `String.prototype.endsWith`. -/
def strEndsWith (s suffixStr : String) : Bool :=
  suffixStr.data.isSuffixOf s.data

/-- The characters of the Korean particle class `[은는이가을를에게서와과도만]`. -/
def koreanParticleChars : List Char :=
  ['은', '는', '이', '가', '을', '를', '에', '게', '서', '와', '과', '도', '만']

/-- The alternatives of the Korean ending pattern
`(다|요|ㅂ니다|습니다|세요|하다|되다|이다)$`. -/
def koreanEndingStrs : List String :=
  ["다", "요", "ㅂ니다", "습니다", "세요", "하다", "되다", "이다"]

/-- `estimatePOS(word)`: the heuristic part-of-speech tagger. English-only
words are looked up in closed conjunction/preposition/determiner lists then
suffix rules (`-ly` → ADV, `-ing`/`-ed` → VERB) with NOUN fallback; words
containing Korean particle characters are ADP, words with Korean verb
endings are VERB; all-digit words are NUM; everything else is NOUN. -/
def estimatePOS (word : String) : PosTag :=
  let conjunctions := ["and", "or", "but", "yet", "so", "for", "nor"]
  let prepositions := ["in", "on", "at", "by", "with", "from", "to", "of"]
  let determiners := ["a", "an", "the", "this", "that", "these", "those"]
  let lowerWord := lowerStr word
  if word.data ≠ [] ∧ word.data.all isEnglishLetter then
    if lowerWord ∈ conjunctions then PosTag.CONJ
    else if lowerWord ∈ prepositions then PosTag.ADP
    else if lowerWord ∈ determiners then PosTag.DET
    else if strEndsWith lowerWord "ly" then PosTag.ADV
    else if strEndsWith lowerWord "ing" || strEndsWith lowerWord "ed" then PosTag.VERB
    else PosTag.NOUN
  else if word.data.any (· ∈ koreanParticleChars) then PosTag.ADP
  else if koreanEndingStrs.any (fun e => strEndsWith word e) then PosTag.VERB
  else if word.data ≠ [] ∧ word.data.all Char.isDigit then PosTag.NUM
  else PosTag.NOUN

/-! ## StateManager: `setLevel` -/

/-- The digits-prefix part of `parseInt`: the value of the leading decimal
digits, `none` when there is no leading digit. -/
def parseDigits (cs : List Char) : Option ℕ :=
  let digits := cs.takeWhile Char.isDigit
  if digits.isEmpty then none
  else some (digits.foldl (fun acc c => 10 * acc + (c.toNat - 48)) 0)

/-- The hex-digits part of `parseInt` after a `0x`/`0X` prefix. -/
def parseDigitsHex (cs : List Char) : Option ℕ :=
  let digits := cs.takeWhile (fun c => c.isDigit ||
    ('a' ≤ c && c ≤ 'f') || ('A' ≤ c && c ≤ 'F'))
  if digits.isEmpty then none
  else some (digits.foldl (fun acc c =>
    16 * acc + (if c.isDigit then c.toNat - 48
      else if 'a' ≤ c && c ≤ 'f' then c.toNat - 87 else c.toNat - 55)) 0)

/-- The unsigned part of `parseInt` with no explicit radix: hexadecimal
after a `0x`/`0X` prefix, decimal otherwise. -/
def parseUnsigned (cs : List Char) : Option ℕ :=
  match cs with
  | '0' :: 'x' :: rest => parseDigitsHex rest
  | '0' :: 'X' :: rest => parseDigitsHex rest
  | _ => parseDigits cs

/-- `parseInt(s)` (no radix argument): skip leading whitespace, read an
optional sign and the leading digits (hex after `0x`); `none` models
`NaN`. -/
def jsParseInt (s : String) : Option ℤ :=
  let cs := s.data.dropWhile (fun c => jsIsWhitespace c)
  match cs with
  | '-' :: rest => (parseUnsigned rest).map (fun n => -(n : ℤ))
  | '+' :: rest => (parseUnsigned rest).map (fun n => (n : ℤ))
  | _ => (parseUnsigned cs).map (fun n => (n : ℤ))

/-- The state-change events `StateManager` can emit. -/
inductive AppEvent
  | levelChange (oldLevel newLevel : ℤ)
  | textChange (level : ℤ) (text : String)
  | animationStateChange (isAnimating : Bool)
  deriving DecidableEq, Repr

/-- The slice of `AppState` that `setLevel` can see or touch. -/
structure AppState where
  currentLevel : ℤ
  texts : List (ℤ × String)
  isAnimating : Bool
  deriving DecidableEq, Repr

/-- `StateManager.setLevel(level)`: parse the argument with `parseInt`;
reject (returning `false`, emitting nothing, changing nothing) unless it is
one of `0,1,2,3` and differs from the current level; otherwise update
`currentLevel`, emit one `levelChange {oldLevel, newLevel}` event and
return `true`. The result is `(returnValue, newState, emittedEvents)`. -/
def setLevelParsed (parsed : Option ℤ) (st : AppState) :
    Bool × AppState × List AppEvent :=
  match parsed with
  | none => (false, st, [])
  | some newLevel =>
    if newLevel ∉ ([0, 1, 2, 3] : List ℤ) then (false, st, [])
    else if st.currentLevel = newLevel then (false, st, [])
    else (true, { st with currentLevel := newLevel },
      [AppEvent.levelChange st.currentLevel newLevel])

def setLevel (level : String) (st : AppState) : Bool × AppState × List AppEvent :=
  setLevelParsed (jsParseInt level) st

/-! ## TextStructurer: `parseParagraphs`, `structureText` -/

/-- `String.prototype.trim` (ASCII whitespace model). -/
def trimStr (s : String) : String :=
  String.mk (((s.data.dropWhile (fun c => jsIsWhitespace c)).reverse.dropWhile
    (fun c => jsIsWhitespace c)).reverse)

/-- Split a character list into its lines (pieces between single `'\n'`s). -/
def splitLines : List Char → List Char → List (List Char)
  | [], cur => [cur.reverse]
  | '\n' :: cs, cur => cur.reverse :: splitLines cs []
  | c :: cs, cur => splitLines cs (c :: cur)

/-- Regroup lines into the pieces of `text.split(/\n\n+/)`: a separator of
that regex is a run of two or more newlines, i.e. one or more empty lines;
so the nonempty pieces are maximal runs of nonempty lines rejoined with a
single newline. (Pieces the regex split would also produce but that consist
of nothing are dropped here; `parseParagraphs` filters them out right after
trimming anyway.) -/
def groupParasAux : List (List Char) → List Char → List (List Char)
  | [], cur => if cur.isEmpty then [] else [cur]
  | l :: ls, cur =>
    if l.isEmpty then
      (if cur.isEmpty then [] else [cur]) ++ groupParasAux ls []
    else
      groupParasAux ls (if cur.isEmpty then l else cur ++ '\n' :: l)

/-- `parseParagraphs(text)`: split on blank lines (`/\n\n+/`), trim each
piece, drop the empty ones. -/
def parseParagraphs (text : String) : List String :=
  ((groupParasAux (splitLines text.data []) []).map
    (fun p => trimStr (String.mk p))).filter (fun p => p ≠ "")

/-- A structured word `{text, position, sentence, paragraph, pos}` as built
by `structureText`; `position` is the document-global running index. -/
structure SWord where
  text : String
  position : ℕ
  sentence : ℕ
  paragraph : ℕ
  pos : PosTag
  deriving DecidableEq, Repr

/-- A structured sentence `{text, index, paragraph, wordCount}`. -/
structure SSentence where
  text : String
  index : ℕ
  paragraph : ℕ
  wordCount : ℕ
  deriving DecidableEq, Repr

/-- Accumulator of `structureText`'s nested loops: the collected words and
sentences plus the running `wordPosition` and `sentenceIndex` counters. -/
structure BuildState where
  words : List SWord
  sentences : List SSentence
  wordPosition : ℕ
  sentenceIndex : ℕ
  deriving DecidableEq, Repr

/-- The structured text `{words, sentences}`. -/
structure StructuredText where
  words : List SWord
  sentences : List SSentence
  deriving DecidableEq, Repr

/-- `structureText(text)`, with the external `natural` library tokenizers
passed as parameters (`tokSent` for `tokenizeSentences`' underlying
sentence tokenizer, `tokWord` for `tokenizeWords`): walk paragraphs, their
sentences (blank ones dropped, as `tokenizeSentences` does), and their
words, giving every word a document-global `position`, a document-global
`sentence` index, its `paragraph` index and its `estimatePOS` tag. -/
def structureText (tokSent tokWord : String → List String) (text : String) :
    StructuredText :=
  let paragraphs := parseParagraphs text
  let final := paragraphs.enum.foldl (fun (st : BuildState) (pPair : ℕ × String) =>
    ((tokSent pPair.2).filter (fun s => trimStr s ≠ "")).foldl
      (fun (st2 : BuildState) (sentence : String) =>
      let tokens := tokWord sentence
      let newWords : List SWord := tokens.enum.map (fun tPair =>
        { text := tPair.2
          position := st2.wordPosition + tPair.1
          sentence := st2.sentenceIndex
          paragraph := pPair.1
          pos := estimatePOS tPair.2 })
      let newSentence : SSentence :=
        { text := sentence
          index := st2.sentenceIndex
          paragraph := pPair.1
          wordCount := tokens.length }
      { words := st2.words ++ newWords
        sentences := st2.sentences ++ [newSentence]
        wordPosition := st2.wordPosition + tokens.length
        sentenceIndex := st2.sentenceIndex + 1 }) st)
    { words := [], sentences := [], wordPosition := 0, sentenceIndex := 0 }
  { words := final.words, sentences := final.sentences }

/-! ## PriorityCalculator: scores and `calculateWordPriority` -/

/-- The fixed POS weight table (`POS_WEIGHTS`). -/
def POS_WEIGHTS : PosTag → ℚ
  | PosTag.NOUN => 1
  | PosTag.VERB => 9/10
  | PosTag.NUM => 17/20
  | PosTag.ADJ => 6/10
  | PosTag.ADV => 4/10
  | PosTag.ADP => 2/10
  | PosTag.DET => 1/10
  | PosTag.CONJ => 1/20

/-- `calculatePOSScore(pos)` (the `|| 0.5` default is unreachable over the
closed tag type). -/
def calculatePOSScore (pos : PosTag) : ℚ := POS_WEIGHTS pos

/-- The enriched word record fed to `calculateWordPriority`
(a structured word plus its `normalizedTfidf`). -/
structure PWord where
  text : String
  position : ℕ
  sentence : ℕ
  pos : PosTag
  normalizedTfidf : ℚ
  deriving DecidableEq, Repr

/-- `calculateSyntaxScore(word, sentence)`: position-of-speech heuristic
over `relativePosition = word.position / sentence.length` (note: the
document-global `position`, as in the source). -/
def calculateSyntaxScore (word : PWord) (sentence : List PWord) : ℚ :=
  let sentenceLength : ℚ := (sentence.length : ℚ)
  let relativePosition := (word.position : ℚ) / sentenceLength
  if word.pos = PosTag.NOUN then
    if relativePosition < 3/10 then 1
    else if relativePosition > 1/2 then 8/10
    else 6/10
  else if word.pos = PosTag.VERB then 9/10
  else if word.pos = PosTag.ADJ ∨ word.pos = PosTag.ADV then 3/10
  else if word.pos = PosTag.ADP ∨ word.pos = PosTag.CONJ then 1/10
  else 1/2

/-- `calculateWordPriority(word, sentenceWords, sentenceLength)`:
`clamp(0.4·tfidf + 0.3·pos + 0.2·syntax + 0.1·location, 0, 1)`, where the
location score is `calculateLocationScore(word.position, sentenceLength)` —
`word.position` being the document-global index the structurer assigned. -/
def calculateWordPriority (word : PWord) (sentenceWords : List PWord)
    (sentenceLength : ℕ) : ℚ :=
  let tfidfScore := word.normalizedTfidf
  let posScore := calculatePOSScore word.pos
  let syntaxScore := calculateSyntaxScore word sentenceWords
  let locationScore := calculateLocationScore (word.position : ℚ) (sentenceLength : ℚ)
  max 0 (min 1 (4/10 * tfidfScore + 3/10 * posScore + 2/10 * syntaxScore +
    1/10 * locationScore))

/-- `wordsBySentence[i]` as built by `calculatePrioritiesForText`
(grouping preserves encounter order, so it is the sublist of the enriched
words with sentence index `i`). -/
def sentenceWordsOf (words : List PWord) (i : ℕ) : List PWord :=
  words.filter (fun w => w.sentence == i)

/-- The location score `calculateWordPriority` feeds into the priority
formula for word `w` of the enriched list `words`:
`calculateLocationScore(w.position, |wordsBySentence[w.sentence]|)`. -/
def locationScoreUsed (words : List PWord) (w : PWord) : ℚ :=
  calculateLocationScore (w.position : ℚ)
    ((sentenceWordsOf words w.sentence).length : ℚ)

/-- The location score as the specification (and the code's own parameter
documentation) describes it: `1 − positionWithinSentence/sentenceLength`,
sentences of length ≤ 1 scoring 1.0. Written from the spec's words, for
comparison with what the code computes. -/
def locationScoreSpec (posInSentence : ℕ) (sentenceLength : ℕ) : ℚ :=
  if sentenceLength ≤ 1 then 1
  else 1 - (posInSentence : ℚ) / (sentenceLength : ℚ)

/-- The enrichment step of `calculatePrioritiesForText` for a word the
TF-IDF map does not contain (true of every word shorter than the minimum
scored length 2): `tfidf` and `normalizedTfidf` default to 0. -/
def enrichNoTfidf (w : SWord) : PWord :=
  { text := w.text, position := w.position, sentence := w.sentence,
    pos := w.pos, normalizedTfidf := 0 }

/-- The external `natural.SentenceTokenizer`'s behaviour on the failing
input (it splits after sentence-final punctuation): modelled only at the
inputs this development evaluates. -/
def demoSentenceTokenizer (s : String) : List String :=
  if s = "a b. c d" then ["a b.", "c d"] else [s]

/-- The external `natural.WordTokenizer`'s behaviour on the failing input:
alphanumeric word tokens, punctuation dropped. -/
def demoWordTokenizer (s : String) : List String :=
  splitWords (String.mk (s.data.filter (fun c => c ≠ '.')))

-- basic sanity checks of the tokenizer model
example : splitWords "the quick  brown fox" = ["the", "quick", "brown", "fox"] := by decide
example : splitWords "  a b " = ["a", "b"] := by decide
example : splitWords "" = [] := by decide
example : lowerStr "The Fox" = "the fox" := by decide

theorem char_toLower_idem (c : Char) : c.toLower.toLower = c.toLower := by
  unfold Char.toLower
  simp only []
  by_cases h : c.toNat ≥ 65 ∧ c.toNat ≤ 90
  · rw [if_pos h]
    have hlt : c.toNat ≤ 90 := h.2
    have hv : Nat.isValidChar (c.toNat + 32) := Or.inl (by omega)
    have htn : (Char.ofNat (c.toNat + 32)).toNat = c.toNat + 32 := by
      unfold Char.ofNat
      rw [dif_pos hv]
      rfl
    rw [htn, if_neg (by omega)]
  · rw [if_neg h, if_neg h]

theorem lowerStr_idem (s : String) : lowerStr (lowerStr s) = lowerStr s := by
  simp only [lowerStr, List.map_map]
  congr 1
  exact List.map_congr_left (fun c _ => char_toLower_idem c)

theorem mem_jsSetAdd {acc : List String} {v w : String} :
    w ∈ jsSetAdd acc v ↔ w ∈ acc ∨ w = v := by
  unfold jsSetAdd
  split
  · next h =>
    constructor
    · exact Or.inl
    · rintro (hw | rfl)
      · exact hw
      · exact h
  · simp

theorem nodup_jsSetAdd {acc : List String} (h : acc.Nodup) (v : String) :
    (jsSetAdd acc v).Nodup := by
  unfold jsSetAdd
  split
  · exact h
  · next hv => simpa [List.nodup_append] using ⟨h, hv⟩

theorem jsSet_foldl_mem (l : List String) (acc : List String) (w : String) :
    w ∈ l.foldl jsSetAdd acc ↔ w ∈ acc ∨ w ∈ l := by
  induction l generalizing acc with
  | nil => simp
  | cons x xs ih =>
    simp only [List.foldl_cons, ih, mem_jsSetAdd, List.mem_cons]
    tauto

theorem jsSet_foldl_nodup (l : List String) (acc : List String) (h : acc.Nodup) :
    (l.foldl jsSetAdd acc).Nodup := by
  induction l generalizing acc with
  | nil => exact h
  | cons x xs ih => exact ih _ (nodup_jsSetAdd h x)

theorem mem_jsSetOfList {l : List String} {w : String} :
    w ∈ jsSetOfList l ↔ w ∈ l := by
  simp [jsSetOfList, jsSet_foldl_mem]

theorem nodup_jsSetOfList (l : List String) : (jsSetOfList l).Nodup :=
  jsSet_foldl_nodup l [] List.nodup_nil

theorem findExactMatches_filter_foldl (S T : List String) (acc : List String) :
    S.foldl (fun ms w => if w ∈ T then jsSetAdd ms w else ms) acc =
      (S.filter (fun w => w ∈ T)).foldl jsSetAdd acc := by
  induction S generalizing acc with
  | nil => rfl
  | cons x xs ih =>
    by_cases hx : x ∈ T
    · simp [hx, ih]
    · simp [hx, ih]

theorem mem_findExactMatches {s t : List String} {w : String} :
    w ∈ findExactMatches s t ↔ w ∈ s.map lowerStr ∧ w ∈ t.map lowerStr := by
  unfold findExactMatches
  rw [findExactMatches_filter_foldl, jsSet_foldl_mem]
  simp [List.mem_filter, mem_jsSetOfList]

theorem removed_foldl_mem (l : List String) (E : List String) (acc : List String) (w : String) :
    w ∈ l.foldl (fun acc w => if w ∈ E then acc else jsSetAdd acc w) acc ↔
      w ∈ acc ∨ (w ∈ l ∧ w ∉ E) := by
  induction l generalizing acc with
  | nil => simp
  | cons x xs ih =>
    by_cases hx : x ∈ E
    · simp only [List.foldl_cons, if_pos hx, ih, List.mem_cons]
      constructor
      · rintro (h | h)
        · exact Or.inl h
        · exact Or.inr ⟨Or.inr h.1, h.2⟩
      · rintro (h | ⟨(rfl | h), hne⟩)
        · exact Or.inl h
        · exact absurd hx hne
        · exact Or.inr ⟨h, hne⟩
    · simp only [List.foldl_cons, if_neg hx, ih, mem_jsSetAdd, List.mem_cons]
      constructor
      · rintro ((h | rfl) | h)
        · exact Or.inl h
        · exact Or.inr ⟨Or.inl rfl, hx⟩
        · exact Or.inr ⟨Or.inr h.1, h.2⟩
      · rintro (h | ⟨(rfl | h), hne⟩)
        · exact Or.inl (Or.inl h)
        · exact Or.inl (Or.inr rfl)
        · exact Or.inr ⟨h, hne⟩

/-- Membership characterization of the three lists of the fast-path diff:
`kept` holds the words present in both texts, `removed` the source-only
words, `added` the target-only words (all after lowercasing). -/
theorem analyzeDifference_mem (A B : String) (w : String) :
    (w ∈ (analyzeDifference A B).kept ↔
      w ∈ ((splitWords A).map lowerStr).map lowerStr ∧
        w ∈ ((splitWords B).map lowerStr).map lowerStr) ∧
    (w ∈ (analyzeDifference A B).removed ↔
      w ∈ (splitWords A).map lowerStr ∧
        ¬(w ∈ ((splitWords A).map lowerStr).map lowerStr ∧
          w ∈ ((splitWords B).map lowerStr).map lowerStr)) ∧
    (w ∈ (analyzeDifference A B).added ↔
      w ∈ (splitWords B).map lowerStr ∧
        ¬(w ∈ ((splitWords A).map lowerStr).map lowerStr ∧
          w ∈ ((splitWords B).map lowerStr).map lowerStr)) := by
  refine ⟨?_, ?_, ?_⟩
  · exact mem_findExactMatches
  · rw [show (analyzeDifference A B).removed = ((splitWords A).map lowerStr).foldl
      (fun acc w => if w ∈ findExactMatches ((splitWords A).map lowerStr)
        ((splitWords B).map lowerStr) then acc else jsSetAdd acc w) [] from rfl]
    rw [removed_foldl_mem]
    simp only [List.not_mem_nil, false_or]
    constructor
    · rintro ⟨h1, h2⟩
      exact ⟨h1, fun hc => h2 (mem_findExactMatches.mpr hc)⟩
    · rintro ⟨h1, h2⟩
      exact ⟨h1, fun hc => h2 (mem_findExactMatches.mp hc)⟩
  · rw [show (analyzeDifference A B).added = ((splitWords B).map lowerStr).foldl
      (fun acc w => if w ∈ findExactMatches ((splitWords A).map lowerStr)
        ((splitWords B).map lowerStr) then acc else jsSetAdd acc w) [] from rfl]
    rw [removed_foldl_mem]
    simp only [List.not_mem_nil, false_or]
    constructor
    · rintro ⟨h1, h2⟩
      exact ⟨h1, fun hc => h2 (mem_findExactMatches.mpr hc)⟩
    · rintro ⟨h1, h2⟩
      exact ⟨h1, fun hc => h2 (mem_findExactMatches.mp hc)⟩

theorem map_lowerStr_idem (l : List String) :
    (l.map lowerStr).map lowerStr = l.map lowerStr := by
  rw [List.map_map]
  exact List.map_congr_left (fun s _ => lowerStr_idem s)

theorem jsSet_foldl_eq_append (l acc : List String) (h : l.Nodup)
    (hd : ∀ w ∈ l, w ∉ acc) : l.foldl jsSetAdd acc = acc ++ l := by
  induction l generalizing acc with
  | nil => simp
  | cons x xs ih =>
    have hx : x ∉ acc := hd x (List.mem_cons_self x xs)
    have hstep : jsSetAdd acc x = acc ++ [x] := by simp [jsSetAdd, hx]
    rw [List.foldl_cons, hstep, ih (acc ++ [x]) h.of_cons]
    · simp
    · intro w hw
      simp only [List.mem_append, List.mem_singleton]
      rintro (hwa | rfl)
      · exact hd w (List.mem_cons_of_mem x hw) hwa
      · exact (List.nodup_cons.mp h).1 hw

theorem jsSetOfList_of_nodup (l : List String) (h : l.Nodup) : jsSetOfList l = l := by
  simpa using jsSet_foldl_eq_append l [] h (by simp)

/-- C4: the fast-path diff of a text against itself keeps the full unique
lowercase whitespace-token vocabulary and removes/adds/morphs nothing.
Stated as the literal result value, plus the vocabulary reading of `kept`
(no duplicates; membership is exactly the lowercase tokens of `A`). -/
theorem analyzeDifference_self (A : String) :
    analyzeDifference A A =
      { kept := jsSetOfList ((splitWords A).map lowerStr),
        removed := [], added := [], morphed := [] } ∧
    (analyzeDifference A A).kept.Nodup ∧
    (∀ w, w ∈ (analyzeDifference A A).kept ↔ w ∈ (splitWords A).map lowerStr) := by
  have hM : ∀ s : String, jsSetOfList (((splitWords s).map lowerStr).map lowerStr) =
      jsSetOfList ((splitWords s).map lowerStr) := by
    intro s
    rw [map_lowerStr_idem]
  have hkept : findExactMatches ((splitWords A).map lowerStr) ((splitWords A).map lowerStr) =
      jsSetOfList ((splitWords A).map lowerStr) := by
    unfold findExactMatches
    rw [findExactMatches_filter_foldl, hM]
    have hfilter : (jsSetOfList ((splitWords A).map lowerStr)).filter
        (fun w => w ∈ jsSetOfList ((splitWords A).map lowerStr)) =
        jsSetOfList ((splitWords A).map lowerStr) := by
      apply List.filter_eq_self.mpr
      intro w hw
      simpa using hw
    rw [hfilter]
    exact jsSetOfList_of_nodup _ (nodup_jsSetOfList _)
  have hmemE : ∀ w ∈ (splitWords A).map lowerStr,
      w ∈ findExactMatches ((splitWords A).map lowerStr) ((splitWords A).map lowerStr) := by
    intro w hw
    have hww : w ∈ ((splitWords A).map lowerStr).map lowerStr := by
      rw [map_lowerStr_idem]; exact hw
    exact mem_findExactMatches.mpr ⟨hww, hww⟩
  have hremoved : ((splitWords A).map lowerStr).foldl
      (fun acc w => if w ∈ findExactMatches ((splitWords A).map lowerStr)
        ((splitWords A).map lowerStr) then acc else jsSetAdd acc w) [] = [] := by
    apply List.eq_nil_iff_forall_not_mem.mpr
    intro w hw
    rw [removed_foldl_mem] at hw
    rcases hw with h | ⟨h1, h2⟩
    · simp at h
    · exact h2 (hmemE w h1)
  have hkfield : (analyzeDifference A A).kept =
      findExactMatches ((splitWords A).map lowerStr) ((splitWords A).map lowerStr) := rfl
  have hrfield : (analyzeDifference A A).removed = ((splitWords A).map lowerStr).foldl
      (fun acc w => if w ∈ findExactMatches ((splitWords A).map lowerStr)
        ((splitWords A).map lowerStr) then acc else jsSetAdd acc w) [] := rfl
  have hafield : (analyzeDifference A A).added = ((splitWords A).map lowerStr).foldl
      (fun acc w => if w ∈ findExactMatches ((splitWords A).map lowerStr)
        ((splitWords A).map lowerStr) then acc else jsSetAdd acc w) [] := rfl
  have hmfield : (analyzeDifference A A).morphed = [] := rfl
  refine ⟨?_, ?_, ?_⟩
  · have : analyzeDifference A A = TransitionDiff.mk (analyzeDifference A A).kept
        (analyzeDifference A A).removed (analyzeDifference A A).added
        (analyzeDifference A A).morphed := rfl
    rw [this, hkfield, hkept, hrfield, hremoved, hafield, hremoved, hmfield]
  · rw [hkfield, hkept]; exact nodup_jsSetOfList _
  · intro w
    rw [hkfield, hkept, mem_jsSetOfList]

/-- C5: the fast-path diff is symmetric as sets: `kept` is symmetric in the
two texts, and `removed`/`added` swap when the texts swap (ignoring order). -/
theorem analyzeDifference_symm (A B : String) (w : String) :
    (w ∈ (analyzeDifference A B).kept ↔ w ∈ (analyzeDifference B A).kept) ∧
    (w ∈ (analyzeDifference A B).removed ↔ w ∈ (analyzeDifference B A).added) ∧
    (w ∈ (analyzeDifference A B).added ↔ w ∈ (analyzeDifference B A).removed) := by
  obtain ⟨kAB, rAB, aAB⟩ := analyzeDifference_mem A B w
  obtain ⟨kBA, rBA, aBA⟩ := analyzeDifference_mem B A w
  refine ⟨?_, ?_, ?_⟩
  · exact ⟨fun h => kBA.mpr (and_comm.mp (kAB.mp h)),
      fun h => kAB.mpr (and_comm.mp (kBA.mp h))⟩
  · constructor
    · intro h
      obtain ⟨h1, h2⟩ := rAB.mp h
      exact aBA.mpr ⟨h1, fun hc => h2 ⟨hc.2, hc.1⟩⟩
    · intro h
      obtain ⟨h1, h2⟩ := aBA.mp h
      exact rAB.mpr ⟨h1, fun hc => h2 ⟨hc.2, hc.1⟩⟩
  · constructor
    · intro h
      obtain ⟨h1, h2⟩ := aAB.mp h
      exact rBA.mpr ⟨h1, fun hc => h2 ⟨hc.2, hc.1⟩⟩
    · intro h
      obtain ⟨h1, h2⟩ := rBA.mp h
      exact aAB.mpr ⟨h1, fun hc => h2 ⟨hc.2, hc.1⟩⟩

theorem availCount_cons_used (rest : List (ℕ × String)) (index : ℕ) (u : List ℕ)
    (w : String) (h : index ∉ rest.map Prod.fst) :
    availCount rest (index :: u) w = availCount rest u w := by
  unfold availCount
  congr 1
  apply List.filter_congr
  intro p hp
  have hne : p.1 ≠ index := by
    intro he
    exact h (he ▸ List.mem_map_of_mem Prod.fst hp)
  simp [List.mem_cons, hne]

theorem assignPass_count (l : List (ℕ × String)) (counts : String → ℕ) (used : List ℕ)
    (hnd : (l.map Prod.fst).Nodup) (w : String) :
    assignedCount (assignPass l counts used).1 w =
      min (counts w) (availCount l used w) := by
  induction l generalizing counts used with
  | nil => simp [assignPass, assignedCount, availCount]
  | cons p rest ih =>
    obtain ⟨index, word⟩ := p
    rw [List.map_cons, List.nodup_cons] at hnd
    obtain ⟨hidx, hnd'⟩ := hnd
    by_cases hc : 0 < counts (lowerStr word) ∧ index ∉ used
    · rw [show assignPass ((index, word) :: rest) counts used =
          (⟨word, index⟩ :: (assignPass rest (decCount counts (lowerStr word)) (index :: used)).1,
           (assignPass rest (decCount counts (lowerStr word)) (index :: used)).2) by
        simp [assignPass, hc]]
      by_cases hw : lowerStr word = w
      · subst hw
        have h1 : assignedCount (⟨word, index⟩ ::
            (assignPass rest (decCount counts (lowerStr word)) (index :: used)).1) (lowerStr word) =
            1 + assignedCount (assignPass rest (decCount counts (lowerStr word)) (index :: used)).1
              (lowerStr word) := by
          simp [assignedCount, List.filter_cons]
          omega
        rw [h1, ih _ _ hnd', availCount_cons_used rest index used _ hidx]
        have h2 : availCount ((index, word) :: rest) used (lowerStr word) =
            1 + availCount rest used (lowerStr word) := by
          simp [availCount, List.filter_cons, hc.2]
          omega
        rw [h2]
        have h3 : decCount counts (lowerStr word) (lowerStr word) = counts (lowerStr word) - 1 := by
          simp [decCount]
        rw [h3]
        have := hc.1
        omega
      · have h1 : assignedCount (⟨word, index⟩ ::
            (assignPass rest (decCount counts (lowerStr word)) (index :: used)).1) w =
            assignedCount (assignPass rest (decCount counts (lowerStr word)) (index :: used)).1 w := by
          simp [assignedCount, List.filter_cons, hw]
        rw [h1, ih _ _ hnd', availCount_cons_used rest index used _ hidx]
        have h2 : availCount ((index, word) :: rest) used w = availCount rest used w := by
          simp [availCount, List.filter_cons, hw]
        have h3 : decCount counts (lowerStr word) w = counts w := by
          simp only [decCount]
          rw [if_neg (fun h => hw h.symm)]
        rw [h2, h3]
    · rw [show assignPass ((index, word) :: rest) counts used =
          assignPass rest counts used by simp [assignPass, hc]]
      rw [ih _ _ hnd']
      rcases Decidable.not_and_iff_or_not.mp hc with h0 | hu
      · have h0' : counts (lowerStr word) = 0 := by omega
        by_cases hw : lowerStr word = w
        · subst hw
          have h2 : availCount ((index, word) :: rest) used (lowerStr word) =
              availCount rest used (lowerStr word) ∨
              availCount ((index, word) :: rest) used (lowerStr word) =
              1 + availCount rest used (lowerStr word) := by
            by_cases hiu : index ∈ used
            · left; simp [availCount, List.filter_cons, hiu]
            · right; simp [availCount, List.filter_cons, hiu]; omega
          rcases h2 with h2 | h2
          · rw [h2]
          · rw [h2]; omega
        · have h2 : availCount ((index, word) :: rest) used w = availCount rest used w := by
            simp [availCount, List.filter_cons, hw]
          rw [h2]
      · have hiu : index ∈ used := Decidable.not_not.mp hu
        have h2 : availCount ((index, word) :: rest) used w = availCount rest used w := by
          simp [availCount, List.filter_cons, hiu]
        rw [h2]

theorem enumFrom_fst_ge (l : List String) (n : ℕ) :
    ∀ p ∈ List.enumFrom n l, n ≤ p.1 := by
  induction l generalizing n with
  | nil => simp
  | cons x xs ih =>
    intro p hp
    rcases List.mem_cons.mp hp with rfl | hp
    · exact le_refl n
    · exact le_trans (Nat.le_succ n) (ih (n + 1) p hp)

theorem enumFrom_fst_nodup (l : List String) (n : ℕ) :
    ((List.enumFrom n l).map Prod.fst).Nodup := by
  induction l generalizing n with
  | nil => simp
  | cons x xs ih =>
    simp only [List.enumFrom_cons, List.map_cons, List.nodup_cons]
    refine ⟨?_, ih (n + 1)⟩
    intro hmem
    obtain ⟨p, hp, hfst⟩ := List.mem_map.mp hmem
    have := enumFrom_fst_ge xs (n + 1) p hp
    omega

theorem enum_fst_nodup (l : List String) : (l.enum.map Prod.fst).Nodup :=
  enumFrom_fst_nodup l 0

theorem enumFrom_filter_snd_length (f : String → Bool) (l : List String) (n : ℕ) :
    ((List.enumFrom n l).filter (fun p => f p.2)).length = (l.filter f).length := by
  induction l generalizing n with
  | nil => simp
  | cons x xs ih =>
    simp only [List.enumFrom_cons, List.filter_cons]
    by_cases hx : f x
    · simp only [hx, if_pos, List.length_cons, ih]
    · simp only [hx, Bool.false_eq_true, if_neg, ih]
      simp [hx, ih]

theorem availCount_no_used (l : List (ℕ × String)) (w : String) :
    availCount l [] w = (l.filter (fun p => lowerStr p.2 == w)).length := by
  unfold availCount
  congr 1
  apply List.filter_congr
  intro p _
  simp

theorem availCount_enum_eq_count (l : List String) (w : String) :
    availCount l.enum [] w = (l.map lowerStr).count w := by
  rw [availCount_no_used]
  have key : ∀ (m : List String) (n : ℕ),
      ((List.enumFrom n m).filter (fun p => lowerStr p.2 == w)).length =
        (m.filter (fun s => lowerStr s == w)).length := by
    intro m
    induction m with
    | nil => simp
    | cons x xs ih =>
      intro n
      simp only [List.enumFrom_cons, List.filter_cons]
      by_cases hx : lowerStr x == w
      · simp [hx, ih]
      · simp [hx, ih]
  rw [show l.enum = List.enumFrom 0 l from rfl, key l 0]
  rw [List.count, List.countP_map, List.countP_eq_length_filter]
  rfl

theorem assignPass_used_mem (l : List (ℕ × String)) (counts : String → ℕ) (used : List ℕ)
    (j : ℕ) :
    j ∈ (assignPass l counts used).2 ↔
      (∃ r ∈ (assignPass l counts used).1, r.index = j) ∨ j ∈ used := by
  induction l generalizing counts used with
  | nil => simp [assignPass]
  | cons p rest ih =>
    obtain ⟨index, word⟩ := p
    by_cases hc : 0 < counts (lowerStr word) ∧ index ∉ used
    · rw [show assignPass ((index, word) :: rest) counts used =
          (⟨word, index⟩ :: (assignPass rest (decCount counts (lowerStr word)) (index :: used)).1,
           (assignPass rest (decCount counts (lowerStr word)) (index :: used)).2) by
        simp [assignPass, hc]]
      simp only [ih]
      constructor
      · rintro (⟨r, hr, rfl⟩ | hj)
        · exact Or.inl ⟨r, List.mem_cons_of_mem _ hr, rfl⟩
        · rcases List.mem_cons.mp hj with rfl | hj
          · exact Or.inl ⟨⟨word, j⟩, List.mem_cons_self _ _, rfl⟩
          · exact Or.inr hj
      · rintro (⟨r, hr, rfl⟩ | hj)
        · rcases List.mem_cons.mp hr with rfl | hr
          · exact Or.inr (List.mem_cons_self _ _)
          · exact Or.inl ⟨r, hr, rfl⟩
        · exact Or.inr (List.mem_cons_of_mem _ hj)
    · rw [show assignPass ((index, word) :: rest) counts used =
          assignPass rest counts used by simp [assignPass, hc]]
      exact ih counts used

theorem assignPass_refs_not_used (l : List (ℕ × String)) (counts : String → ℕ)
    (used : List ℕ) :
    ∀ r ∈ (assignPass l counts used).1, r.index ∉ used := by
  induction l generalizing counts used with
  | nil => simp [assignPass]
  | cons p rest ih =>
    obtain ⟨index, word⟩ := p
    by_cases hc : 0 < counts (lowerStr word) ∧ index ∉ used
    · rw [show assignPass ((index, word) :: rest) counts used =
          (⟨word, index⟩ :: (assignPass rest (decCount counts (lowerStr word)) (index :: used)).1,
           (assignPass rest (decCount counts (lowerStr word)) (index :: used)).2) by
        simp [assignPass, hc]]
      intro r hr
      rcases List.mem_cons.mp hr with rfl | hr
      · exact hc.2
      · intro hu
        exact ih _ _ r hr (List.mem_cons_of_mem index hu)
    · rw [show assignPass ((index, word) :: rest) counts used =
          assignPass rest counts used by simp [assignPass, hc]]
      exact ih counts used

theorem assignPass_refs_index_nodup (l : List (ℕ × String)) (counts : String → ℕ)
    (used : List ℕ) :
    ((assignPass l counts used).1.map WordRef.index).Nodup := by
  induction l generalizing counts used with
  | nil => simp [assignPass]
  | cons p rest ih =>
    obtain ⟨index, word⟩ := p
    by_cases hc : 0 < counts (lowerStr word) ∧ index ∉ used
    · rw [show assignPass ((index, word) :: rest) counts used =
          (⟨word, index⟩ :: (assignPass rest (decCount counts (lowerStr word)) (index :: used)).1,
           (assignPass rest (decCount counts (lowerStr word)) (index :: used)).2) by
        simp [assignPass, hc]]
      simp only [List.map_cons, List.nodup_cons]
      refine ⟨?_, ih _ _⟩
      intro hmem
      obtain ⟨r, hr, hidx⟩ := List.mem_map.mp hmem
      exact assignPass_refs_not_used rest _ (index :: used) r hr
        (hidx ▸ List.mem_cons_self index used)
    · rw [show assignPass ((index, word) :: rest) counts used =
          assignPass rest counts used by simp [assignPass, hc]]
      exact ih counts used

/-- C1 (amended): for each lowercase word, `transformDiffData` assigns to
`kept` exactly `min(reported count, occurrences in the rendered toText
tokens)` indices — never more than reported; to `added` exactly
`min(reported count, occurrences still unused after the kept pass)`; to
`removed` exactly `min(reported count, occurrences in the rendered fromText
tokens)`; no toText index is assigned to both `kept` and `added`, and no
category assigns an index twice. -/
theorem transformDiffData_multiplicity (diffData : TransitionDiff) (fromText toText : String) :
    (∀ w, assignedCount (transformDiffData diffData fromText toText).kept w =
        min (wordCounts diffData.kept w) (((splitWords toText).map lowerStr).count w)) ∧
    (∀ w, assignedCount (transformDiffData diffData fromText toText).added w =
        min (wordCounts diffData.added w)
          (availCount (splitWords toText).enum
            (assignPass (splitWords toText).enum (wordCounts diffData.kept) []).2 w)) ∧
    (∀ w, assignedCount (transformDiffData diffData fromText toText).removed w =
        min (wordCounts diffData.removed w) (((splitWords fromText).map lowerStr).count w)) ∧
    (∀ r ∈ (transformDiffData diffData fromText toText).kept,
      ∀ r' ∈ (transformDiffData diffData fromText toText).added, r.index ≠ r'.index) ∧
    ((transformDiffData diffData fromText toText).kept.map WordRef.index).Nodup ∧
    ((transformDiffData diffData fromText toText).added.map WordRef.index).Nodup ∧
    ((transformDiffData diffData fromText toText).removed.map WordRef.index).Nodup := by
  have hkf : (transformDiffData diffData fromText toText).kept =
      (assignPass (splitWords toText).enum (wordCounts diffData.kept) []).1 := rfl
  have haf : (transformDiffData diffData fromText toText).added =
      (assignPass (splitWords toText).enum (wordCounts diffData.added)
        (assignPass (splitWords toText).enum (wordCounts diffData.kept) []).2).1 := rfl
  have hrf : (transformDiffData diffData fromText toText).removed =
      (assignPass (splitWords fromText).enum (wordCounts diffData.removed) []).1 := rfl
  refine ⟨?_, ?_, ?_, ?_, ?_, ?_, ?_⟩
  · intro w
    rw [hkf, assignPass_count _ _ _ (enum_fst_nodup _) w, availCount_enum_eq_count]
  · intro w
    rw [haf, assignPass_count _ _ _ (enum_fst_nodup _) w]
  · intro w
    rw [hrf, assignPass_count _ _ _ (enum_fst_nodup _) w, availCount_enum_eq_count]
  · intro r hr r' hr' heq
    rw [hkf] at hr
    rw [haf] at hr'
    have hin : r.index ∈ (assignPass (splitWords toText).enum (wordCounts diffData.kept) []).2 :=
      (assignPass_used_mem _ _ _ _).mpr (Or.inl ⟨r, hr, rfl⟩)
    exact assignPass_refs_not_used _ _ _ r' hr' (heq ▸ hin)
  · rw [hkf]; exact assignPass_refs_index_nodup _ _ _
  · rw [haf]; exact assignPass_refs_index_nodup _ _ _
  · rw [hrf]; exact assignPass_refs_index_nodup _ _ _

/-- C1 counterexample: with diff `{kept:["a","b"], morphed:[{source:"x",
target:"a"}]}`, `fromText = "x"`, `toText = "a"`, the word `"b"` is reported
once in `kept` but gets zero rendered indices (the claim's "never fewer"
fails), and rendered toText index 0 is referenced both by `kept` and by the
morph target (the claim's "no index in more than one category" fails). -/
theorem transformDiffData_claim_ctrex :
    assignedCount (transformDiffData
      { kept := ["a", "b"], removed := [], added := [],
        morphed := [{ source := "x", target := "a", similarity := 1 }] } "x" "a").kept "b" = 0 ∧
    wordCounts ["a", "b"] "b" = 1 ∧
    (∃ r ∈ (transformDiffData
      { kept := ["a", "b"], removed := [], added := [],
        morphed := [{ source := "x", target := "a", similarity := 1 }] } "x" "a").kept,
      r.index = 0) ∧
    (∃ m ∈ (transformDiffData
      { kept := ["a", "b"], removed := [], added := [],
        morphed := [{ source := "x", target := "a", similarity := 1 }] } "x" "a").morphed,
      m.toRef.index = 0) := by
  decide

/-- C3 (amended): for a rate in `[0,1]`, `selectWordsToRemove` removes
exactly `len − floor(len × rate)` words (equivalently `ceil(len × (1 −
rate))`, not `floor(len × (1 − rate))`), and `toRemove ++ toKeep`
reconstructs the input list with no duplication or omission. -/
theorem selectWordsToRemove_spec {α : Type} (words : List α) (rate : ℚ)
    (h0 : 0 ≤ rate) (h1 : rate ≤ 1) :
    (selectWordsToRemove words rate).toRemove.length =
      words.length - (⌊(words.length : ℚ) * rate⌋).toNat ∧
    ((selectWordsToRemove words rate).toRemove.length : ℤ) =
      ⌈(words.length : ℚ) * (1 - rate)⌉ ∧
    (selectWordsToRemove words rate).toRemove ++ (selectWordsToRemove words rate).toKeep =
      words := by
  have hfl0 : 0 ≤ ⌊(words.length : ℚ) * rate⌋ := by
    apply Int.floor_nonneg.mpr
    positivity
  have hfl1 : ⌊(words.length : ℚ) * rate⌋ ≤ (words.length : ℤ) := by
    have : (words.length : ℚ) * rate ≤ (words.length : ℚ) := by
      nlinarith
    calc ⌊(words.length : ℚ) * rate⌋ ≤ ⌊(words.length : ℚ)⌋ := Int.floor_le_floor this
      _ = (words.length : ℤ) := by exact_mod_cast Int.floor_intCast (words.length : ℤ)
  have hrc : ((words.length : ℤ) - ⌊(words.length : ℚ) * rate⌋).toNat =
      words.length - (⌊(words.length : ℚ) * rate⌋).toNat := by
    omega
  refine ⟨?_, ?_, ?_⟩
  · show (words.take _).length = _
    rw [List.length_take]
    simp only [Int.cast_natCast]
    rw [hrc]
    omega
  · show ((words.take _).length : ℤ) = _
    rw [List.length_take]
    simp only [Int.cast_natCast]
    rw [hrc, mul_sub, mul_one]
    have hceil : ⌈(words.length : ℚ) - (words.length : ℚ) * rate⌉ =
        (words.length : ℤ) - ⌊(words.length : ℚ) * rate⌋ := by
      rw [show ((words.length : ℚ) - (words.length : ℚ) * rate) =
          (-((words.length : ℚ) * rate) + ((words.length : ℤ) : ℚ)) by push_cast; ring]
      rw [Int.ceil_add_int, Int.ceil_neg]
      ring
    rw [hceil]
    omega
  · exact List.take_append_drop _ words

/-- C3 counterexample: for a five-element list and rate `0.7`, the code
removes `5 − floor(3.5) = 2` words, while the claim's `floor(5 × 0.3) = 1`.
-/
theorem selectWordsToRemove_claim_ctrex :
    (selectWordsToRemove ["v", "w", "x", "y", "z"] (7/10)).toRemove.length = 2 ∧
    ⌊(5 : ℚ) * (1 - 7/10)⌋ = 1 := by
  constructor
  · simp only [selectWordsToRemove, List.length_cons, List.length_nil]
    norm_num
    rfl
  · norm_num

/-- Witness for C3's amended theorem at `words = [v,w,x,y,z]`, `rate = 0.7`. -/
theorem selectWordsToRemove_spec_witness :
    (selectWordsToRemove ["v", "w", "x", "y", "z"] (7/10)).toRemove ++
      (selectWordsToRemove ["v", "w", "x", "y", "z"] (7/10)).toKeep =
      ["v", "w", "x", "y", "z"] :=
  (selectWordsToRemove_spec ["v", "w", "x", "y", "z"] (7/10)
    (by norm_num) (by norm_num)).2.2

example : rawLevelOf 2 = 0 := by norm_num [rawLevelOf]
example : rawLevelOf (1/2) = 3 := by norm_num [rawLevelOf]
example : rawLevelOf (5/4) = 3/2 := by norm_num [rawLevelOf]

/-- C6: scale 2.0 maps to level 0 and scale 0.5 to level 3 for any current
level; scale 1.25 maps to a level within distance 1 of level 1 (its raw
level is 1.5, which `Math.round` takes to 2); and whenever the raw level is
within the 0.15 threshold of the current level, the level is unchanged. -/
theorem scaleToLevel_spec :
    (∀ c : ℤ, scaleToLevel 2 c = 0) ∧
    (∀ c : ℤ, scaleToLevel (1/2) c = 3) ∧
    (∀ c : ℤ, |scaleToLevel (5/4) c - 1| ≤ 1) ∧
    (∀ (scale : ℚ) (c : ℤ), |rawLevelOf scale - (c : ℚ)| < 15/100 →
      scaleToLevel scale c = c) := by
  have hraw2 : rawLevelOf 2 = 0 := by norm_num [rawLevelOf]
  have hrawhalf : rawLevelOf (1/2) = 3 := by norm_num [rawLevelOf]
  have hraw54 : rawLevelOf (5/4) = 3/2 := by norm_num [rawLevelOf]
  refine ⟨?_, ?_, ?_, ?_⟩
  · intro c
    unfold scaleToLevel
    rw [hraw2]
    by_cases hc : |0 - (c : ℚ)| ≥ 15/100
    · rw [if_pos hc]
      norm_num [jsRound]
    · rw [if_neg hc]
      push_neg at hc
      rw [zero_sub, abs_neg] at hc
      have h3 : |(c : ℚ)| = ((|c| : ℤ) : ℚ) := by push_cast; rfl
      rw [h3] at hc
      have h4 : ((|c| : ℤ) : ℚ) < 1 := hc.trans (by norm_num)
      have h5 : |c| < 1 := by exact_mod_cast h4
      rw [abs_lt] at h5
      omega
  · intro c
    unfold scaleToLevel
    rw [hrawhalf]
    by_cases hc : |3 - (c : ℚ)| ≥ 15/100
    · rw [if_pos hc]
      norm_num [jsRound]
    · rw [if_neg hc]
      push_neg at hc
      have h3 : |3 - (c : ℚ)| = ((|3 - c| : ℤ) : ℚ) := by push_cast; rfl
      rw [h3] at hc
      have h4 : ((|3 - c| : ℤ) : ℚ) < 1 := hc.trans (by norm_num)
      have h5 : |3 - c| < 1 := by exact_mod_cast h4
      rw [abs_lt] at h5
      omega
  · intro c
    unfold scaleToLevel
    rw [hraw54]
    by_cases hc : |3/2 - (c : ℚ)| ≥ 15/100
    · rw [if_pos hc]
      have : jsRound (3/2) = 2 := by norm_num [jsRound]
      rw [this]
      norm_num
    · rw [if_neg hc]
      push_neg at hc
      exfalso
      rcases le_or_lt (c : ℚ) (3/2) with h | h
      · have h1 : 3/2 - (c : ℚ) < 15/100 := (le_abs_self _).trans_lt hc
        have h2 : (1 : ℚ) < (c : ℚ) := by linarith
        have h3 : ((c : ℚ)) < 2 := by linarith
        have : (1 : ℤ) < c := by exact_mod_cast h2
        have : c < 2 := by exact_mod_cast h3
        omega
      · have h1 : (c : ℚ) - 3/2 < 15/100 := (neg_le_abs _).trans_lt hc |>.trans_le' (by
          rw [neg_sub])
        have h2 : (1 : ℚ) < (c : ℚ) := by linarith
        have h3 : ((c : ℚ)) < 2 := by linarith
        have : (1 : ℤ) < c := by exact_mod_cast h2
        have : c < 2 := by exact_mod_cast h3
        omega
  · intro scale c h
    unfold scaleToLevel
    rw [if_neg (not_le.mpr h)]

/-- Witness for C6's threshold clause: at scale 1 the raw level is exactly
2, so with current level 2 the pinch does not change the level. -/
theorem scaleToLevel_spec_witness :
    |rawLevelOf 1 - ((2 : ℤ) : ℚ)| < 15/100 ∧ scaleToLevel 1 2 = 2 :=
  ⟨by norm_num [rawLevelOf], scaleToLevel_spec.2.2.2 1 2 (by norm_num [rawLevelOf])⟩

/-- C7: the degenerate-input guards. When all raw TF-IDF scores are equal
(min = max) every normalized score is exactly 0.5; `calculateIDF` returns 0
when the word appears in zero documents (for any modelling of `Math.log`);
and `calculateLocationScore` returns 1.0 for sentence length ≤ 1 — each
guarded result is an exact rational, no division by the degenerate
quantity occurs. -/
theorem degenerate_guards :
    (∀ scores : List ℚ, listMin scores = listMax scores →
      normalizeTFIDF scores = scores.map (fun _ => 1/2)) ∧
    (∀ (lg : ℚ → ℚ) (word : String) (documents : List (List String)),
      (documents.filter (fun doc => word ∈ doc)).length = 0 →
      calculateIDF lg word documents = 0) ∧
    (∀ position sentenceLength : ℚ, sentenceLength ≤ 1 →
      calculateLocationScore position sentenceLength = 1) := by
  refine ⟨?_, ?_, ?_⟩
  · intro scores h
    unfold normalizeTFIDF
    rw [if_pos (by rw [← h, sub_self])]
  · intro lg word documents h
    unfold calculateIDF
    rw [if_pos h]
  · intro position sentenceLength h
    unfold calculateLocationScore
    rw [if_pos h]

/-- Witness for C7 at concrete degenerate inputs: equal scores `[3,3]`, a
word absent from the only document, and a one-word sentence. -/
theorem degenerate_guards_witness :
    normalizeTFIDF [3, 3] = [1/2, 1/2] ∧
    calculateIDF id "fox" [["dog"]] = 0 ∧
    calculateLocationScore 0 1 = 1 :=
  ⟨by rw [degenerate_guards.1 [3, 3] (by norm_num [listMin, listMax])]; rfl,
   degenerate_guards.2.1 id "fox" [["dog"]] (by decide),
   degenerate_guards.2.2 0 1 (by norm_num)⟩

/-- C8: the animation plan parameters: the duration multiplier equals
`clamp(totalAnimatedWords/100, 0.3, 1.0)` (with `totalAnimatedWords` the sum
of the three diff category sizes) and is bounded on both sides, and a
transition is classified large exactly when `|added| + |kept| ≥ 3000`. -/
theorem animator_plan_parameters (diffData : Transformed) :
    durationMultiplier diffData =
      clampQ ((diffData.added.length + diffData.kept.length +
        diffData.removed.length : ℚ) / 100) (3/10) 1 ∧
    3/10 ≤ durationMultiplier diffData ∧
    durationMultiplier diffData ≤ 1 ∧
    (isLargeTransition diffData = true ↔
      3000 ≤ diffData.added.length + diffData.kept.length) := by
  refine ⟨?_, ?_, ?_, ?_⟩
  · unfold durationMultiplier clampQ totalAnimatedWords
    push_cast
    ring_nf
  · exact le_max_left _ _
  · exact max_le (by norm_num) ((min_le_left _ _).trans (by norm_num))
  · unfold isLargeTransition
    exact decide_eq_true_iff

example : estimatePOS "the" = PosTag.DET := by decide
example : estimatePOS "Quickly" = PosTag.ADV := by decide
example : estimatePOS "running" = PosTag.VERB := by decide
example : estimatePOS "fox" = PosTag.NOUN := by decide
example : estimatePOS "42" = PosTag.NUM := by decide
example : estimatePOS "and" = PosTag.CONJ := by decide
example : estimatePOS "of" = PosTag.ADP := by decide

/-- C9: the tagger's range is `{NOUN, VERB, NUM, ADP, DET, CONJ, ADV}`; in
particular no input ever yields ADJ, even though the tag enumeration, the
POS weight table and the syntax-score heuristic all carry an ADJ case. -/
theorem estimatePOS_range (word : String) :
    estimatePOS word ∈ [PosTag.NOUN, PosTag.VERB, PosTag.NUM, PosTag.ADP,
      PosTag.DET, PosTag.CONJ, PosTag.ADV] ∧
    estimatePOS word ≠ PosTag.ADJ := by
  constructor
  · unfold estimatePOS
    dsimp only
    repeat' split
    all_goals decide
  · unfold estimatePOS
    dsimp only
    repeat' split
    all_goals decide

example : jsParseInt "2" = some 2 := by decide
example : jsParseInt " -3x" = some (-3) := by decide
example : jsParseInt "abc" = none := by decide
example : jsParseInt "1.5" = some 1 := by decide
example : jsParseInt "0x2" = some 2 := by decide

/-- C10: `setLevel` returns `true` and emits exactly one `levelChange
{oldLevel, newLevel}` event iff the argument parses to an integer in
`{0,1,2,3}` different from the current level, in which case only
`currentLevel` changes; otherwise it returns `false`, emits no event and
leaves the whole state unchanged. -/
theorem setLevel_spec (s : String) (st : AppState) :
    ((setLevel s st).1 = true ↔
      ∃ n, jsParseInt s = some n ∧ (n = 0 ∨ n = 1 ∨ n = 2 ∨ n = 3) ∧
        n ≠ st.currentLevel) ∧
    (∀ n, jsParseInt s = some n → (n = 0 ∨ n = 1 ∨ n = 2 ∨ n = 3) →
      n ≠ st.currentLevel →
      setLevel s st = (true, { st with currentLevel := n },
        [AppEvent.levelChange st.currentLevel n])) ∧
    ((setLevel s st).1 = false → setLevel s st = (false, st, [])) := by
  refine ⟨?_, ?_, ?_⟩
  · unfold setLevel
    cases hp : jsParseInt s with
    | none => simp [setLevelParsed]
    | some n =>
      simp only [setLevelParsed]
      by_cases hmem : n ∉ ([0, 1, 2, 3] : List ℤ)
      · rw [if_pos hmem]
        simp only [List.mem_cons, List.not_mem_nil, or_false] at hmem
        simp only [Option.some.injEq]
        constructor
        · intro h
          simp at h
        · rintro ⟨m, rfl, hm, _⟩
          exact absurd hm hmem
      · rw [if_neg hmem]
        push_neg at hmem
        simp only [List.mem_cons, List.not_mem_nil, or_false] at hmem
        by_cases heq : st.currentLevel = n
        · rw [if_pos heq]
          simp only [Option.some.injEq]
          constructor
          · intro h
            simp at h
          · rintro ⟨m, rfl, _, hne⟩
            exact absurd heq.symm hne
        · rw [if_neg heq]
          simp only [Option.some.injEq]
          constructor
          · intro _
            exact ⟨n, rfl, hmem, fun h => heq h.symm⟩
          · intro _
            trivial
  · intro n hp hmem hne
    unfold setLevel
    rw [hp]
    simp only [setLevelParsed]
    have hmem' : n ∈ ([0, 1, 2, 3] : List ℤ) := by
      rcases hmem with rfl | rfl | rfl | rfl <;> decide
    rw [if_neg (not_not_intro hmem')]
    rw [if_neg (fun h => hne h.symm)]
  · intro hfalse
    unfold setLevel at hfalse ⊢
    cases hp : jsParseInt s with
    | none => simp [setLevelParsed]
    | some n =>
      rw [hp] at hfalse
      simp only [setLevelParsed] at hfalse ⊢
      by_cases hmem : n ∉ ([0, 1, 2, 3] : List ℤ)
      · rw [if_pos hmem]
      · rw [if_neg hmem] at hfalse ⊢
        by_cases heq : st.currentLevel = n
        · rw [if_pos heq]
        · rw [if_neg heq] at hfalse
          simp at hfalse

/-- Witness for C10: from level 0, `setLevel("2")` succeeds, sets level 2
and emits exactly one `levelChange {oldLevel: 0, newLevel: 2}` event. -/
theorem setLevel_spec_witness :
    setLevel "2" { currentLevel := 0, texts := [], isAnimating := false } =
      (true, { currentLevel := 2, texts := [], isAnimating := false },
        [AppEvent.levelChange 0 2]) :=
  (setLevel_spec "2" { currentLevel := 0, texts := [], isAnimating := false }).2.1
    2 (by decide) (by decide) (by decide)

example : parseParagraphs "one two\n\nthree" = ["one two", "three"] := by decide
example : parseParagraphs "a b. c d" = ["a b. c d"] := by decide
example : parseParagraphs "  x \n\n\n y\nz\n" = ["x", "y\nz"] := by decide

/-- C2: evaluation of the code at the failing input `"a b. c d"` (two
sentences in one paragraph). The third word `"c"` starts the second
sentence (within-sentence position 0 of a 2-word sentence), so the claimed
location score is `locationScoreSpec 0 2 = 1`; but `calculateWordPriority`
passes the document-global position 2, producing location score
`1 − 2/2 = 0` and priority `0.46` instead of `0.56`. -/
theorem locationScore_global_position_bug :
    (structureText demoSentenceTokenizer demoWordTokenizer "a b. c d").words =
      [{ text := "a", position := 0, sentence := 0, paragraph := 0, pos := PosTag.DET },
       { text := "b", position := 1, sentence := 0, paragraph := 0, pos := PosTag.NOUN },
       { text := "c", position := 2, sentence := 1, paragraph := 0, pos := PosTag.NOUN },
       { text := "d", position := 3, sentence := 1, paragraph := 0, pos := PosTag.NOUN }] ∧
    ((structureText demoSentenceTokenizer demoWordTokenizer "a b. c d").words.map
        enrichNoTfidf).indexOf
      { text := "c", position := 2, sentence := 1, pos := PosTag.NOUN,
        normalizedTfidf := 0 } = 2 ∧
    (sentenceWordsOf
      ((structureText demoSentenceTokenizer demoWordTokenizer "a b. c d").words.map
        enrichNoTfidf) 1).indexOf
      { text := "c", position := 2, sentence := 1, pos := PosTag.NOUN,
        normalizedTfidf := 0 } = 0 ∧
    (sentenceWordsOf
      ((structureText demoSentenceTokenizer demoWordTokenizer "a b. c d").words.map
        enrichNoTfidf) 1).length = 2 ∧
    locationScoreUsed
      ((structureText demoSentenceTokenizer demoWordTokenizer "a b. c d").words.map
        enrichNoTfidf)
      { text := "c", position := 2, sentence := 1, pos := PosTag.NOUN,
        normalizedTfidf := 0 } = 0 ∧
    locationScoreSpec 0 2 = 1 ∧
    calculateWordPriority
      { text := "c", position := 2, sentence := 1, pos := PosTag.NOUN,
        normalizedTfidf := 0 }
      (sentenceWordsOf
        ((structureText demoSentenceTokenizer demoWordTokenizer "a b. c d").words.map
          enrichNoTfidf) 1) 2 = 23/50 := by
  have hwords : (structureText demoSentenceTokenizer demoWordTokenizer "a b. c d").words =
      [{ text := "a", position := 0, sentence := 0, paragraph := 0, pos := PosTag.DET },
       { text := "b", position := 1, sentence := 0, paragraph := 0, pos := PosTag.NOUN },
       { text := "c", position := 2, sentence := 1, paragraph := 0, pos := PosTag.NOUN },
       { text := "d", position := 3, sentence := 1, paragraph := 0, pos := PosTag.NOUN }] := by
    decide
  have hgroup : sentenceWordsOf
      ((structureText demoSentenceTokenizer demoWordTokenizer "a b. c d").words.map
        enrichNoTfidf) 1 =
      [{ text := "c", position := 2, sentence := 1, pos := PosTag.NOUN,
         normalizedTfidf := 0 },
       { text := "d", position := 3, sentence := 1, pos := PosTag.NOUN,
         normalizedTfidf := 0 }] := by
    rw [hwords]
    decide
  refine ⟨hwords, ?_, ?_, ?_, ?_, ?_, ?_⟩
  · rw [hwords]; decide
  · rw [hgroup]; decide
  · rw [hgroup]; rfl
  · unfold locationScoreUsed
    rw [hgroup]
    norm_num [calculateLocationScore]
  · norm_num [locationScoreSpec]
  · rw [hgroup]
    norm_num [calculateWordPriority, calculateSyntaxScore, calculatePOSScore,
      POS_WEIGHTS, calculateLocationScore]
